import Mathlib

/-!
Verification development for the HIRA anticancer-bulletin PDF reader
(`hira_anticancer_mcp_server/reader.py`): a shallow embedding of the
semantic PDF navigation and hybrid extraction pipeline, together with
theorems about its behaviour.

A PDF document is modelled as the list of its pages; each page carries
the text that `pdfplumber`'s `extract_text()` returns (with `None`
modelled as `""`), the outcome of `find_tables()` and whether image
rasterisation (`get_pixmap` + PNG encoding) succeeds.  Python `str`
values are modelled as Lean `String` (both are sequences of Unicode
code points), and Python `int` as `Int`.
-/

namespace HiraReader

set_option maxRecDepth 16000

/-! ## Python string primitives

Small total models of the Python `str` operations the reader uses.
Separators passed to `str.split` / `str.replace` in the source are all
single characters, so the split/replace models take a `Char`.
-/

/-- Python's `\s` character class / `str.strip()` whitespace, restricted to
the ASCII whitespace characters (the reader only ever deals with ASCII
whitespace and Korean text). -/
def pyIsSpace (c : Char) : Bool :=
  c = ' ' || c = '\t' || c = '\n' || c = '\r' || c = '\x0b' || c = '\x0c'

/-- Python's `\d` / `str.isdigit` for the ASCII digits (the only digits that
occur in the bulletin). -/
def pyIsDigit (c : Char) : Bool :=
  '0' ≤ c && c ≤ '9'

/-- `str.lower()` on the alphabet the reader handles (ASCII letters; Korean
characters are unaffected by lowercasing). -/
def pyLowerChar (c : Char) : Char :=
  if 'A' ≤ c && c ≤ 'Z' then Char.ofNat (c.toNat + 32) else c

/-- `str.lower()`. -/
def pyLower (s : String) : String :=
  String.mk (s.data.map pyLowerChar)

/-- `str.strip()` on a character list: drop whitespace from both ends. -/
def stripChars (l : List Char) : List Char :=
  ((l.dropWhile pyIsSpace).reverse.dropWhile pyIsSpace).reverse

/-- `str.strip()`. -/
def pyStrip (s : String) : String :=
  String.mk (stripChars s.data)

/-- Substring test on character lists (Python's `needle in hay`). -/
def subList (needle : List Char) : List Char → Bool
  | [] => needle.isEmpty
  | c :: rest => needle.isPrefixOf (c :: rest) || subList needle rest

/-- Python's `needle in hay` for strings. -/
def pyIn (needle hay : String) : Bool :=
  needle.isEmpty || subList needle.data hay.data

/-- `str.startswith`. -/
def pyStartsWith (s t : String) : Bool :=
  t.data.isPrefixOf s.data

/-- `str.split(sep)` (single-character separator) on character lists. -/
def splitOnChar (sep : Char) : List Char → List (List Char)
  | [] => [[]]
  | c :: rest =>
    let r := splitOnChar sep rest
    if c = sep then [] :: r
    else
      match r with
      | [] => [[c]]
      | p :: ps => (c :: p) :: ps

/-- `str.split(sep)` for a single-character separator. -/
def pySplit (s : String) (sep : Char) : List String :=
  (splitOnChar sep s.data).map String.mk

/-- `str.split(sep, 1)` (at most one split) for a single-character separator. -/
def pySplit1 (s : String) (sep : Char) : List String :=
  match splitOnChar sep s.data with
  | [] => [s]
  | [p] => [String.mk p]
  | p :: ps => [String.mk p, String.mk (List.intercalate [sep] ps)]

/-- `str.replace(old, new)` for single-character arguments. -/
def pyReplace (s : String) (o n : Char) : String :=
  String.mk (s.data.map fun c => if c = o then n else c)

/-- Value of a (nonempty, all-digit) decimal digit string. -/
def digitsVal (l : List Char) : Nat :=
  l.foldl (fun n c => 10 * n + (c.toNat - 48)) 0

/-- A nonempty run of ASCII digits (what `^(\d+)$` accepts). -/
def isDigits (l : List Char) : Bool :=
  !l.isEmpty && l.all pyIsDigit

/-- Python `int(s)`: strip whitespace, optional sign, decimal digits;
`none` models a raised `ValueError`.  (Underscore separators and
non-ASCII digits, which CPython also accepts, do not occur in this
domain and are not modelled.) -/
def pyInt (s : String) : Option Int :=
  match stripChars s.data with
  | [] => none
  | c :: r =>
    if c = '+' then if isDigits r then some (digitsVal r : Int) else none
    else if c = '-' then if isDigits r then some (-(digitsVal r : Int)) else none
    else if isDigits (c :: r) then some (digitsVal (c :: r) : Int) else none

/-- The ascending list `[lo, lo+1, …, lo+n-1]` of integers. -/
def intList (lo : Int) : Nat → List Int
  | 0 => []
  | n + 1 => lo :: intList (lo + 1) n

/-- Python `range(s, stop)` as a list of integers. -/
def pyRange (s stop : Int) : List Int :=
  intList s (stop - s).toNat

/-- Python list indexing `l[i]` (negative indices wrap from the end;
`none` models an `IndexError`). -/
def pyIndex {α : Type} (l : List α) (i : Int) : Option α :=
  if 0 ≤ i then l[i.toNat]?
  else if 0 ≤ i + l.length then l[(i + l.length).toNat]?
  else none

/-- First-result loop: `for x in l: if f(x) is not None: return f(x)`. -/
def firstSome {α β : Type} (f : α → Option β) : List α → Option β
  | [] => none
  | x :: xs =>
    match f x with
    | some b => some b
    | none => firstSome f xs

/-- Python slice `s[:n]` (strings are sequences of code points). -/
def pyTake (s : String) (n : Nat) : String :=
  String.mk (s.data.take n)

/-- `s * n` for strings (Python string repetition). -/
def strRepeat (s : String) (n : Nat) : String :=
  String.join (List.replicate n s)

/-- Left-pad with spaces to the given width (Python's `f"{s:>w}"`). -/
def padLeft (s : String) (w : Nat) : String :=
  strRepeat " " (w - s.length) ++ s

/-- Right-pad with spaces to the given width (Python's `f"{s:<w}"`). -/
def padRight (s : String) (w : Nat) : String :=
  s ++ strRepeat " " (w - s.length)

/-- Collapse every maximal whitespace run to a single space
(`re.sub(r"\s+", " ", name)`); `fuel` bounds the recursion (call with
the list length — each step consumes at least one character). -/
def collapseWsFuel : Nat → List Char → List Char
  | 0, l => l
  | _ + 1, [] => []
  | fuel + 1, c :: rest =>
    if pyIsSpace c then ' ' :: collapseWsFuel fuel (rest.dropWhile pyIsSpace)
    else c :: collapseWsFuel fuel rest

/-- `re.sub(r"\s+", " ", ·)` on a character list. -/
def collapseWsChars (l : List Char) : List Char :=
  collapseWsFuel l.length l

/-- `re.sub(r"\s+", " ", s)`. -/
def collapseWs (s : String) : String :=
  String.mk (collapseWsChars s.data)

/-- Index of the first occurrence of `sub` in the remaining text, counting
from `i` (helper for Python's `str.index`). -/
def firstOccFrom (sub : List Char) (i : Nat) : List Char → Option Nat
  | [] => if sub.isEmpty then some i else none
  | c :: rest =>
    if sub.isPrefixOf (c :: rest) then some i else firstOccFrom sub (i + 1) rest

/-- Python `hay.index(sub)` (first occurrence; the reader only calls it
after a successful membership test). -/
def firstOcc (sub hay : List Char) : Option Nat :=
  firstOccFrom sub 0 hay

/-! ## The table-of-contents regular expressions

`reader.py` uses three fixed regular expressions:

* `_TOC_ENTRY_START = (\d+(?:-\d+)?)\.\s` — start of a TOC line item;
* the per-segment patterns `(.+?)·+(\d+)` (`re.match`) and
  `\s(\d+)\s*$` (`re.search`);
* `_TOC_SECTION_PATTERN = □\s*(.+?)·+\s*(\d+)` (`re.finditer`).

Each is implemented below as a deterministic matcher equivalent to the
Python backtracking semantics.  For these particular patterns greedy /
lazy backtracking collapses to a deterministic scan: a quantified run
followed by a character of a disjoint class can only match maximally, so
e.g. `\d+` before `\.` must take the maximal digit run, and the lazy
`(.+?)` simply tries prefixes of increasing length.
-/

/-- Match `(\d+(?:-\d+)?)\.\s` anchored at the head of `l`.
Returns `(consumed length, group 1)` on success.  Only the maximal digit
runs can match, because the character after `\d+` must be `-` or `.`,
and the character after the inner `\d+` must be `.`. -/
def matchEntryStartAt (l : List Char) : Option (Nat × List Char) :=
  let d1 := l.takeWhile pyIsDigit
  if d1.isEmpty then none
  else
    match l.drop d1.length with
    | '-' :: r2 =>
      let d2 := r2.takeWhile pyIsDigit
      if d2.isEmpty then none
      else
        match r2.drop d2.length with
        | '.' :: c :: _ =>
          if pyIsSpace c then some (d1.length + 1 + d2.length + 2, d1 ++ '-' :: d2)
          else none
        | _ => none
    | '.' :: c :: _ =>
      if pyIsSpace c then some (d1.length + 2, d1) else none
    | _ => none

/-- `re.finditer(_TOC_ENTRY_START, text)`: scan left to right, at each
position try the anchored match; on success record
`(match.start, match.end, group 1)` and continue after the match
(non-overlapping), otherwise advance one character.  `fuel` bounds the
recursion (call with the text length). -/
def entryStartScan : Nat → Nat → List Char → List (Nat × Nat × List Char)
  | 0, _, _ => []
  | _, _, [] => []
  | fuel + 1, pos, l@(_ :: rest) =>
    match matchEntryStartAt l with
    | some (len, g) => (pos, pos + len, g) :: entryStartScan fuel (pos + len) (l.drop len)
    | none => entryStartScan fuel (pos + 1) rest

/-- `re.match(r"(.+?)·+(\d+)", segment)`: the lazy `(.+?)` (newline
excluded) takes the shortest nonempty prefix such that a `·`-run
followed by a digit starts right after it; group 2 is that (maximal)
digit run.  `pref` accumulates the group-1 candidate. -/
def dotMatchFrom : Nat → List Char → List Char → Option (List Char × List Char)
  | 0, _, _ => none
  | _ + 1, _, [] => none
  | fuel + 1, pref, c :: rest =>
    if c = '\n' then none
    else if c = '·' then
      let run := (c :: rest).takeWhile (· = '·')
      let ds := ((c :: rest).drop run.length).takeWhile pyIsDigit
      if pref.isEmpty then dotMatchFrom fuel [c] rest
      else if ds.isEmpty then dotMatchFrom fuel (pref ++ [c]) rest
      else some (pref, ds)
    else dotMatchFrom fuel (pref ++ [c]) rest

/-- `re.match(r"(.+?)·+(\d+)", segment)`; returns `(group 1, group 2)`. -/
def dotMatchSeg (s : List Char) : Option (List Char × List Char) :=
  dotMatchFrom s.length [] s

/-- `re.search(r"\s(\d+)\s*$", segment)`: leftmost position whose
character is whitespace, followed by a nonempty digit run and then only
whitespace up to the end.  Returns `(match.start, group 1)`. -/
def numSearchFrom : Nat → Nat → List Char → Option (Nat × List Char)
  | 0, _, _ => none
  | _ + 1, _, [] => none
  | fuel + 1, pos, c :: rest =>
    if pyIsSpace c then
      let ds := rest.takeWhile pyIsDigit
      if !ds.isEmpty && (rest.drop ds.length).all pyIsSpace then some (pos, ds)
      else numSearchFrom fuel (pos + 1) rest
    else numSearchFrom fuel (pos + 1) rest

/-- `re.search(r"\s(\d+)\s*$", segment)`. -/
def numSearchSeg (s : List Char) : Option (Nat × List Char) :=
  numSearchFrom s.length 0 s

/-- Tail of the section pattern after group 1: `·+\s*(\d+)`.
Returns `(group 2, consumed length)`.  Only maximal runs can match
(`·`, whitespace and digit classes are pairwise disjoint). -/
def sectionTail (l : List Char) : Option (List Char × Nat) :=
  let run := l.takeWhile (· = '·')
  if run.isEmpty then none
  else
    let after1 := l.drop run.length
    let ws := after1.takeWhile pyIsSpace
    let ds := (after1.drop ws.length).takeWhile pyIsDigit
    if ds.isEmpty then none
    else some (ds, run.length + ws.length + ds.length)

/-- Lazy `(.+?)` of the section pattern: try group-1 prefixes of
increasing length (newline excluded) until `·+\s*(\d+)` matches after
the prefix.  Returns `(group 1, group 2, consumed length)`. -/
def sectionTryK : Nat → List Char → List Char → Option (List Char × List Char × Nat)
  | 0, _, _ => none
  | _ + 1, _, [] => none
  | fuel + 1, pref, c :: rest =>
    if c = '\n' then none
    else
      match sectionTail rest with
      | some (ds, tlen) => some (pref ++ [c], ds, pref.length + 1 + tlen)
      | none => sectionTryK fuel (pref ++ [c]) rest

/-- The `\s*` after `□` is greedy: try whitespace-run lengths `w` from the
maximal run downwards (`fuel = w + 1`), then the lazy group 1. -/
def sectionTryW (rest : List Char) : Nat → Option (List Char × List Char × Nat)
  | 0 => none
  | w + 1 =>
    match sectionTryK (rest.drop w).length [] (rest.drop w) with
    | some (g1, ds, consumed) => some (g1, ds, 1 + w + consumed)
    | none => sectionTryW rest w

/-- Match `□\s*(.+?)·+\s*(\d+)` anchored at the head of `l`; returns
`(group 1, group 2, consumed length)`. -/
def sectionMatchAt (l : List Char) : Option (List Char × List Char × Nat) :=
  match l with
  | '□' :: rest => sectionTryW rest ((rest.takeWhile pyIsSpace).length + 1)
  | _ => none

/-- `re.finditer(_TOC_SECTION_PATTERN, text)`: non-overlapping scan
returning `(group 1, group 2)` pairs in order. -/
def sectionScan : Nat → List Char → List (List Char × List Char)
  | 0, _ => []
  | _ + 1, [] => []
  | fuel + 1, l@(_ :: rest) =>
    match sectionMatchAt l with
    | some (g1, ds, len) => (g1, ds) :: sectionScan fuel (l.drop len)
    | none => sectionScan fuel rest

/-! ## Data model -/

/-- A TOC line item as collected from the contents page:
`{"num": …, "name": …, "page": …}` before end pages are derived. -/
structure RawEntry where
  num : String
  name : String
  page : Int
deriving Repr, DecidableEq

/-- A finished TOC entry, with the derived `end_page`. -/
structure TocEntry where
  num : String
  name : String
  page : Int
  endPage : Int
deriving Repr, DecidableEq

/-- A top-level section marker `{"name": …, "page": …}`. -/
structure SectionEntry where
  name : String
  page : Int
deriving Repr, DecidableEq

/-- One physical PDF page: the text `extract_text()` yields (`None`
modelled as `""`), the result of `find_tables()` (`none` models a raised
exception, `some k` a list of `k` tables), and whether rasterising the
page to a PNG (`get_pixmap` + `tobytes` + base64) succeeds. -/
structure PdfPage where
  text : String
  tables : Option Nat
  renderOk : Bool
deriving Repr, DecidableEq

/-- An open PDF document: file name (for display) and its pages.  Both
the `fitz` and the `pdfplumber` handle read the same underlying file, so
one page list serves both. -/
structure PdfDoc where
  name : String
  pages : List PdfPage
deriving Repr, DecidableEq

/-- An MCP content block: `TextContent`, or `ImageContent` (whose base64
PNG payload is produced by the rasteriser and is not further inspected,
so it is abstracted away). -/
inductive Block where
  | text (body : String)
  | image
deriving Repr, DecidableEq

/-- The one exception the embedded pipeline can raise. -/
inductive PyError where
  | valueError
deriving Repr, DecidableEq

instance exceptDecEq {ε α : Type} [DecidableEq ε] [DecidableEq α] :
    DecidableEq (Except ε α) := fun a b =>
  match a, b with
  | .ok x, .ok y =>
    if h : x = y then isTrue (by rw [h]) else isFalse (by simp [h])
  | .error x, .error y =>
    if h : x = y then isTrue (by rw [h]) else isFalse (by simp [h])
  | .ok _, .error _ => isFalse (by simp)
  | .error _, .ok _ => isFalse (by simp)

/-- The texts of a document's pages (what the `pdfplumber` loops see). -/
def docTexts (d : PdfDoc) : List String :=
  d.pages.map (·.text)

/-- `pdf.pages[i].extract_text() or ""` for an index that may come from
integer arithmetic (guarded accesses only). -/
def pageText (pages : List String) (i : Int) : String :=
  (pyIndex pages i).getD ""

/-! ## `_parse_toc`: TOC recovery -/

/-- `_parse_toc_entries_from_line`: find all `_TOC_ENTRY_START` matches
in the line, split the line into segments between consecutive matches,
and parse each segment by the dot pattern, falling back to the trailing
number pattern; whitespace in names is collapsed; segments without a
name or with page `≤ 0` are discarded. -/
def parseTocEntriesFromLine (line : String) : List RawEntry :=
  let l := line.data
  let starts := entryStartScan l.length 0 l
  (starts.enum.map fun p =>
    let i := p.1
    let en := p.2.2.1
    let g := p.2.2.2
    let textEnd :=
      match starts[i + 1]? with
      | some q => q.1
      | none => l.length
    let seg := stripChars ((l.drop en).take (textEnd - en))
    let parsed :=
      match dotMatchSeg seg with
      | some (g1, ds) => some (collapseWs (String.mk (stripChars g1)), (digitsVal ds : Int))
      | none =>
        match numSearchSeg seg with
        | some (st, ds) => some (collapseWs (String.mk (stripChars (seg.take st))), (digitsVal ds : Int))
        | none => none
    match parsed with
    | some (nm, pg) =>
      if nm ≠ "" ∧ pg > 0 then some { num := String.mk g, name := nm, page := pg }
      else none
    | none => none).filterMap id

/-- A candidate contents page must contain both anchor phrases. -/
def tocAnchored (t : String) : Bool :=
  pyIn "일반원칙" t && pyIn "암종별" t

/-- The TOC discovery scan: over physical pages `25 ≤ i < min(50, n)`,
among pages containing both anchors pick the one with the greatest
number of `_TOC_ENTRY_START` matches (strictly greater wins, so the
first maximum is kept); `-1` if none qualifies. -/
def bestTocPage (pages : List String) : Int :=
  ((((List.range (min 50 pages.length)).drop 25).foldl
    (fun best i =>
      let t := pages.getD i ""
      if tocAnchored t then
        let c := (entryStartScan t.data.length 0 t.data).length
        if c > best.2 then ((i : Int), c) else best
      else best)
    ((-1 : Int), (0 : Nat)))).1

/-- The raw line items collected from the chosen contents page: per
line, strip it, skip empty lines and lines starting with `□` or
`암환자`, and extract entries. -/
def collectRawEntries (text : String) : List RawEntry :=
  ((((pySplit text '\n').map pyStrip).filter
      (fun ln => ln ≠ "" ∧ ¬ pyStartsWith ln "□" ∧ ¬ pyStartsWith ln "암환자"))).flatMap
    parseTocEntriesFromLine

/-- The raw entries `_parse_toc` collects (empty when no contents page
was discovered). -/
def tocCollected (pages : List String) : List RawEntry :=
  let b := bestTocPage pages
  if b < 0 then [] else collectRawEntries (pages.getD b.toNat "")

/-- The section markers `_parse_toc` collects from the chosen page. -/
def tocSections (pages : List String) : List SectionEntry :=
  let b := bestTocPage pages
  if b < 0 then []
  else
    let t := pages.getD b.toNat ""
    (sectionScan t.data.length t.data).map fun p =>
      { name := String.mk (stripChars p.1), page := (digitsVal p.2 : Int) }

/-- Stable ordered insert by printed page (Python's `list.sort` with the
`page` key is a stable ascending sort). -/
def insertByPage (e : RawEntry) : List RawEntry → List RawEntry
  | [] => [e]
  | x :: xs => if e.page ≤ x.page then e :: x :: xs else x :: insertByPage e xs

/-- Stable sort by printed page. -/
def sortByPage : List RawEntry → List RawEntry
  | [] => []
  | x :: xs => insertByPage x (sortByPage xs)

/-- Deduplicate by printed page, keeping the first occurrence (`seen` is
the set of pages already emitted). -/
def dedupByPage (seen : List Int) : List RawEntry → List RawEntry
  | [] => []
  | x :: xs =>
    if x.page ∈ seen then dedupByPage seen xs
    else x :: dedupByPage (x.page :: seen) xs

/-- `end_page` of the final entry: the first section marker with a
greater printed page, minus one; `page + 10` if there is none. -/
def lastEnd (secs : List SectionEntry) (e : RawEntry) : Int :=
  match firstSome (fun s => if s.page > e.page then some s.page else none) secs with
  | some p => p - 1
  | none => e.page + 10

/-- Attach derived end pages: each entry ends one before the next
entry's printed page; the last entry is bounded by `lastEnd`. -/
def attachEnds (secs : List SectionEntry) : List RawEntry → List TocEntry
  | [] => []
  | [e] => [⟨e.num, e.name, e.page, lastEnd secs e⟩]
  | e :: nxt :: rest => ⟨e.num, e.name, e.page, nxt.page - 1⟩ :: attachEnds secs (nxt :: rest)

/-- `_parse_toc`: discover the contents page, collect section markers
and line entries, sort entries by printed page, deduplicate by page
(first wins) and derive end pages.  Returns `(entries, toc_page_idx)`. -/
def parseToc (pages : List String) : List TocEntry × Int :=
  let b := bestTocPage pages
  let secs := tocSections pages
  let raw := tocCollected pages
  (attachEnds secs (dedupByPage [] (sortByPage raw)), b)

/-! ## Fixed tables: `_CANCER_ALIASES` and `PDF_SECTIONS` -/

/-- `_CANCER_ALIASES`: canonical Korean cancer names with their
English-language synonyms, in the source's (insertion) order. -/
def cancerAliases : List (String × List String) :=
  [("소세포폐암", ["small cell lung", "sclc"]),
   ("비소세포폐암", ["non-small cell lung", "nsclc"]),
   ("위암", ["gastric", "stomach"]),
   ("식도암", ["esophageal", "esophagus"]),
   ("갑상선암", ["thyroid"]),
   ("췌장암", ["pancreatic", "pancreas"]),
   ("간암", ["hepatocellular", "liver", "hcc"]),
   ("담도암", ["biliary", "cholangiocarcinoma"]),
   ("직결장암", ["colorectal", "colon", "rectal", "crc"]),
   ("유방암", ["breast"]),
   ("난소암", ["ovarian", "ovary"]),
   ("난관암", ["fallopian"]),
   ("자궁경부암", ["cervical", "cervix"]),
   ("자궁암", ["uterine", "endometrial"]),
   ("자궁내막암", ["endometrial", "endometrium"]),
   ("신장암", ["renal", "kidney", "rcc"]),
   ("요로상피암", ["urothelial", "bladder"]),
   ("전립선암", ["prostate"]),
   ("두경부암", ["head and neck", "head & neck"]),
   ("신경내분비암", ["neuroendocrine", "net"]),
   ("메르켈세포암", ["merkel"]),
   ("피부암", ["skin", "bcc", "scc"]),
   ("골암", ["bone", "osteosarcoma"]),
   ("중추신경계암", ["cns", "brain", "glioma", "glioblastoma"]),
   ("악성흑색종", ["melanoma"]),
   ("연조직육종", ["soft tissue sarcoma"]),
   ("횡문근육종", ["rhabdomyosarcoma"]),
   ("생식세포종양", ["germ cell"]),
   ("신경모세포종", ["neuroblastoma"]),
   ("윌름즈종양", ["wilms"]),
   ("망막모세포종", ["retinoblastoma"]),
   ("비호지킨림프종", ["non-hodgkin", "nhl", "lymphoma"]),
   ("호지킨림프종", ["hodgkin"]),
   ("다발골수종", ["multiple myeloma", "myeloma"]),
   ("급성골수성백혈병", ["aml", "acute myeloid"]),
   ("급성전골수구성백혈병", ["apl", "promyelocytic"]),
   ("만성골수성백혈병", ["cml", "chronic myeloid"]),
   ("급성림프모구백혈병", ["all", "acute lymphoblastic"]),
   ("만성림프구성백혈병", ["cll", "chronic lymphocytic"]),
   ("골수형성이상증후군", ["mds", "myelodysplastic"])]

/-- `PDF_SECTIONS`: named document sections with their search keywords. -/
def pdfSections : List (String × List String) :=
  [("일반원칙", ["일반원칙"]),
   ("암종별항암요법", ["주요 암종별 항암요법"]),
   ("항암면역요법제", ["항암면역요법제"]),
   ("항구토제", ["항구토제"]),
   ("별표", ["별표", "[별표"]),
   ("부록", ["부록", "부표"])]

/-- `PDF_SECTIONS.get(section, [section])`. -/
def sectionKeywords (sectionName : String) : List String :=
  match firstSome (fun p => if p.1 = sectionName then some p.2 else none) pdfSections with
  | some kws => kws
  | none => [sectionName]

/-! ## `_calc_toc_offset`: printed-page / physical-index calibration

The module-level memoisation cache `_toc_offset_cache` is behaviourally
transparent (it stores exactly the value this pure function computes per
file), so the embedding is the uncached function.
-/

/-- The printed footer number of a page text: last nonempty (stripped)
line, if it consists solely of digits (`re.match(r"^(\d+)$", last)`);
`none` also covers a page with no nonempty lines. -/
def footerOf (text : String) : Option Int :=
  let lines := ((pySplit (pyStrip text) '\n').map pyStrip).filter (fun ln => ln ≠ "")
  match lines.getLast? with
  | none => none
  | some last => if isDigits last.data then some (digitsVal last.data : Int) else none

/-- First strategy: when the TOC index is known, scan the (up to 4)
physical pages right after it and use the first printed footer found:
`offset = scan_idx - footer + 1`. -/
def offsetStrategy1 (pages : List String) (tocIdx : Int) : Option Int :=
  if 0 ≤ tocIdx then
    firstSome
      (fun scanIdx => (footerOf (pageText pages scanIdx)).map fun f => scanIdx - f + 1)
      (pyRange (tocIdx + 1) (min (tocIdx + 5) (pages.length : Int)))
  else none

/-- Second strategy: scan physical pages `30 ≤ i < min(50, n)` for one
whose first 500 characters contain the anchor `일반원칙`, and apply the
footer technique to that 500-character window. -/
def offsetStrategy2 (pages : List String) : Option Int :=
  firstSome
    (fun i =>
      let t := pyTake (pageText pages i) 500
      if pyIn "일반원칙" t then (footerOf t).map fun f => i - f + 1 else none)
    (pyRange 30 (min 50 (pages.length : Int)))

/-- `_calc_toc_offset`: first strategy, then the anchor fallback, then
the fixed constant `33`. -/
def calcTocOffset (pages : List String) (tocIdx : Int) : Int :=
  match offsetStrategy1 pages tocIdx with
  | some o => o
  | none =>
    match offsetStrategy2 pages with
    | some o => o
    | none => 33

/-! ## `_verify_page_with_fuzzy` -/

/-- Split the topic name on `/` (via `|`) and keep the stripped
fragments of length at least 2. -/
def nameParts (cancerName : String) : List String :=
  (((pySplit (pyReplace cancerName '/' '|') '|').map pyStrip)).filter (fun p => p.length ≥ 2)

/-- Does the leading 500-character window of page `i` contain one of the
name fragments? -/
def hasNamePart (pages : List String) (parts : List String) (i : Int) : Bool :=
  parts.any fun p => pyIn p (pyTake (pageText pages i) 500)

/-- The probe order: radius 1, 2, …, `searchRange`, forward before
backward at each radius. -/
def probeCandidates (expectedIdx : Int) (searchRange : Nat) : List Int :=
  (((List.range searchRange).map (fun n => n + 1) : List Nat)).flatMap fun d =>
    [expectedIdx + (d : Int), expectedIdx - (d : Int)]

/-- `_verify_page_with_fuzzy`: accept the expected page if its window
contains a fragment; otherwise take the first successful probe; on
failure return the expected index unchanged. -/
def verifyPage (pages : List String) (expectedIdx : Int) (cancerName : String)
    (totalPages : Int) (searchRange : Nat := 2) : Int :=
  let parts := nameParts cancerName
  if parts.isEmpty then expectedIdx
  else if 0 ≤ expectedIdx ∧ expectedIdx < totalPages ∧ hasNamePart pages parts expectedIdx then
    expectedIdx
  else
    match firstSome
        (fun c => if 0 ≤ c ∧ c < totalPages ∧ hasNamePart pages parts c then some c else none)
        (probeCandidates expectedIdx searchRange) with
    | some c => c
    | none => expectedIdx

/-! ## `_toc_page_to_indices` and the locators -/

/-- `_toc_page_to_indices`: printed page range to physical index range
via the calibrated offset, fuzzy start verification (preserving the
span) and clamping to `[0, total-1]`.  (The source's `filepath=None`
default never occurs in this pipeline — the PDF is always at hand — so
the document is a mandatory argument; the `toc` parameter the source
passes along to `_calc_toc_offset` is unused there and dropped.) -/
def tocPageToIndices (entry : TocEntry) (pages : List String) (totalPages : Int)
    (tocPageIdx : Int) : Int × Int :=
  let offset := calcTocOffset pages tocPageIdx
  let start0 := entry.page + offset - 1
  let end0 := entry.endPage + offset - 1
  let se :=
    if entry.name ≠ "" then
      let s := verifyPage pages start0 entry.name totalPages
      (s, s + (entry.endPage - entry.page))
    else (start0, end0)
  let s2 := max 0 (min se.1 (totalPages - 1))
  let e2 := max s2 (min se.2 (totalPages - 1))
  (s2, e2)

/-- Stage 1 of `_find_cancer_pages`: first TOC entry whose name contains
the query. -/
def stage1 (toc : List TocEntry) (query : String) : Option TocEntry :=
  firstSome (fun e => if pyIn query e.name then some e else none) toc

/-- Stage 2: walk the alias table; for a row whose canonical name
contains the query or one of whose aliases occurs in the query, return
the first TOC entry containing the canonical name (otherwise keep
walking). -/
def stage2 (toc : List TocEntry) (query : String) :
    List (String × List String) → Option TocEntry
  | [] => none
  | (kn, als) :: rest =>
    if pyIn query kn || als.any (fun a => pyIn a query) then
      match firstSome (fun e => if pyIn kn e.name then some e else none) toc with
      | some e => some e
      | none => stage2 toc query rest
    else stage2 toc query rest

/-- Stage 3 as written in the source: `any(c in entry_lower for c in
query if len(c) > 1)` — each `c` is a single character of the query, so
the guard compares `len(c)`, the length of a one-character string, with
1. -/
def stage3 (toc : List TocEntry) (query : String) : Option TocEntry :=
  firstSome
    (fun e =>
      let entryLower := pyLower e.name
      if (query.data.filter fun c => decide (c.toString.length > 1)).any
          (fun c => pyIn c.toString entryLower) then some e
      else none)
    toc

/-- The matching cascade of `_find_cancer_pages` (which entry matches is
independent of the page resolution, so the cascade is factored out):
lowercase and strip the query, then stage 1, stage 2, stage 3. -/
def findCancerEntry (toc : List TocEntry) (cancerType : String) : Option TocEntry :=
  let query := pyStrip (pyLower cancerType)
  match stage1 toc query with
  | some e => some e
  | none =>
    match stage2 toc query cancerAliases with
    | some e => some e
    | none => stage3 toc query

/-- `_find_cancer_pages`: resolve the matched entry to the inclusive
physical index list, together with the matched name; `([], "")` when
nothing matches. -/
def findCancerPages (toc : List TocEntry) (cancerType : String) (totalPages : Int)
    (pages : List String) (tocPageIdx : Int) : List Int × String :=
  match findCancerEntry toc cancerType with
  | some e =>
    let se := tocPageToIndices e pages totalPages tocPageIdx
    (pyRange se.1 (se.2 + 1), e.name)
  | none => ([], "")

/-- `_find_section_pages_by_scan`: forward scan for the first page whose
stripped text's first 500 characters contain a section keyword; then
scan up to 100 pages further for another section's keyword to bound the
range (default bound `start + 50`, clamped). -/
def findSectionPagesByScan (pages : List String) (sectionName : String) (totalPages : Int) :
    List Int :=
  let keywords := sectionKeywords sectionName
  match firstSome
      (fun i =>
        let t := pyStrip (pages.getD i "")
        if t ≠ "" ∧ keywords.any (fun kw => pyIn kw (pyTake t 500)) then some i else none)
      (List.range pages.length) with
  | none => []
  | some startPage =>
    let others := (pdfSections.filter (fun p => p.1 ≠ sectionName)).flatMap (·.2)
    let endPage :=
      match firstSome
          (fun i =>
            if others.any (fun kw => pyIn kw (pyTake (pyStrip (pageText pages i)) 500)) then
              some (i - 1)
            else none)
          (pyRange ((startPage : Int) + 1) (min ((startPage : Int) + 100) totalPages)) with
      | some e => e
      | none => min ((startPage : Int) + 50) (totalPages - 1)
    pyRange (startPage : Int) (endPage + 1)

/-- `_find_section_pages_from_toc`: first TOC entry containing a section
keyword, resolved to physical indices; otherwise the text-scan
fallback. -/
def findSectionPages (toc : List TocEntry) (sectionName : String) (pages : List String)
    (totalPages : Int) (tocPageIdx : Int) : List Int :=
  let keywords := sectionKeywords sectionName
  match firstSome
      (fun e => if keywords.any (fun kw => pyIn kw e.name) then some e else none) toc with
  | some e =>
    let se := tocPageToIndices e pages totalPages tocPageIdx
    pyRange se.1 (se.2 + 1)
  | none => findSectionPagesByScan pages sectionName totalPages

/-! ## `_search_pdf`: full-text keyword search -/

/-- The context window around the first occurrence of the keyword on a
page: 200 characters on each side of the (case-insensitive) first
occurrence, stripped, with `…` markers when truncated. -/
def mkContext (text : String) (keywordLower : String) (keyword : String) : String :=
  let idx := (firstOcc keywordLower.data (pyLower text).data).getD 0
  let s := idx - 200
  let e := min text.length (idx + keyword.length + 200)
  let ctx0 := pyStrip (String.mk ((text.data.drop s).take (e - s)))
  let ctx1 := if s > 0 then "…" ++ ctx0 else ctx0
  if e < text.length then ctx1 ++ "…" else ctx1

/-- The search loop: at most 20 matches (checked at the top of the
loop), one per page containing the lowercased keyword, recording the
1-indexed page number and the context window. -/
def searchMatchesAux (keywordLower keyword : String) :
    Nat → Nat → List String → List (Nat × String)
  | _, _, [] => []
  | i, cnt, t :: rest =>
    if cnt ≥ 20 then []
    else if pyIn keywordLower (pyLower t) then
      (i + 1, mkContext t keywordLower keyword) :: searchMatchesAux keywordLower keyword (i + 1) (cnt + 1) rest
    else searchMatchesAux keywordLower keyword (i + 1) cnt rest

/-- All search matches for a keyword. -/
def searchMatches (pages : List String) (keyword : String) : List (Nat × String) :=
  searchMatchesAux (pyLower keyword) keyword 0 0 pages

/-- `_search_pdf`: the formatted search-result block(s). -/
def searchPdf (pages : List String) (keyword : String) (totalPages : Int) : List Block :=
  let ms := searchMatches pages keyword
  if ms.isEmpty then
    [Block.text ("🔍 '" ++ keyword ++ "' 검색 결과: 0건 (전체 " ++ toString totalPages
      ++ "p 검색)\n다른 키워드나 영문/한글 변형을 시도해보세요.")]
  else
    let header :=
      ["🔍 '" ++ keyword ++ "' 검색 결과: " ++ toString ms.length ++ "건 (전체 "
         ++ toString totalPages ++ "p 검색)",
       strRepeat "─" 40]
    let body := ms.flatMap fun m => ["\n📍 p." ++ toString m.1 ++ ":", m.2]
    let closing :=
      [strRepeat "\n─" 40,
       "💡 특정 페이지를 자세히 보려면 pages 파라미터를 사용하세요. 예: pages='"
         ++ String.intercalate "," ((ms.take 5).map fun m => toString m.1) ++ "'"]
    [Block.text (String.intercalate "\n" (header ++ body ++ closing))]

/-! ## Output formatting -/

/-- Helper for `_format_page_range`: collect maximal consecutive runs. -/
def formatRunsAux (start prev : Int) : List Int → List String
  | [] =>
    [if start = prev then "p." ++ toString (start + 1)
     else "p." ++ toString (start + 1) ++ "-" ++ toString (prev + 1)]
  | i :: rest =>
    if i = prev + 1 then formatRunsAux start i rest
    else
      (if start = prev then "p." ++ toString (start + 1)
       else "p." ++ toString (start + 1) ++ "-" ++ toString (prev + 1))
        :: formatRunsAux i i rest

/-- `_format_page_range`: human-readable 1-indexed page ranges. -/
def formatPageRange : List Int → String
  | [] => "(없음)"
  | i :: rest => String.intercalate ", " (formatRunsAux i i rest)

/-- `_format_toc_response`: the navigable TOC listing. -/
def formatTocResponse (fileName : String) (toc : List TocEntry) (totalPages : Int) :
    List Block :=
  let header :=
    ["📄 PDF: " ++ fileName ++ " (" ++ toString totalPages ++ "p)",
     "",
     "📋 목차 (cancer_type 파라미터로 암종별 조회 가능):",
     strRepeat "─" 50]
  let body := toc.map fun e =>
    "  " ++ padLeft e.num 5 ++ ". " ++ padRight e.name 20 ++ " → p." ++ toString e.page
  let closing :=
    [strRepeat "─" 50,
     "",
     "💡 사용법:",
     "  • cancer_type='난소암' → 해당 암종 페이지 자동 조회",
     "  • search='trastuzumab' → 전체 PDF에서 키워드 검색",
     "  • pages='64-68' → 특정 페이지 범위 직접 조회",
     "  • text_only=true → 이미지 없이 텍스트만 (넓은 범위 조회)"]
  [Block.text (String.intercalate "\n" (header ++ body ++ closing))]

/-! ## `_parse_page_range` -/

/-- One comma-separated token of the page-range expression: either
`a-b` (clamped range) or a single 1-indexed page; `.error` models the
`ValueError` that `int()` raises on a malformed token. -/
def parsePart (total : Int) (partRaw : String) : Except PyError (List Int) :=
  let part := pyStrip partRaw
  if pyIn "-" part then
    match pySplit1 part '-' with
    | [s1, s2] =>
      match pyInt s1, pyInt s2 with
      | some a, some b => .ok (pyRange (max (a - 1) 0) (min (b - 1) (total - 1) + 1))
      | _, _ => .error .valueError
    | _ => .error .valueError
  else
    match pyInt part with
    | some a =>
      let idx := a - 1
      if 0 ≤ idx ∧ idx < total then .ok [idx] else .ok []
    | none => .error .valueError

/-- Sequential processing of the tokens (the first bad token raises). -/
def parseParts (total : Int) : List String → Except PyError (List Int)
  | [] => .ok []
  | p :: ps =>
    match parsePart total p with
    | .error e => .error e
    | .ok xs =>
      match parseParts total ps with
      | .error e => .error e
      | .ok rest => .ok (xs ++ rest)

/-- Python `sorted(set(l))`: the ascending list of the distinct
members. -/
def pySortedSet (l : List Int) : List Int :=
  List.insertionSort (· ≤ ·) l.dedup

/-- `_parse_page_range`: split on commas, parse each token, and return
`sorted(set(result))`. -/
def parsePageRange (s : String) (total : Int) : Except PyError (List Int) :=
  (parseParts total (pySplit s ',')).map pySortedSet

/-! ## `read_pdf`: hybrid rendering -/

/-- `find_tables()`-based page classification:
`len(tables) >= _TABLE_THRESHOLD` (threshold 1), `False` when
`find_tables` raises. -/
def hasTables (p : PdfPage) : Bool :=
  match p.tables with
  | some k => k ≥ 1
  | none => false

/-- `_extract_text_safe`: page text with a `--- p.N ---` header, or an
empty-page marker.  (`pdfplumber` extraction is modelled as total, so
the defensive exception branch of the source cannot fire here.) -/
def extractTextSafe (p : PdfPage) (pageNum : Int) : String :=
  if pyStrip p.text ≠ "" then "--- p." ++ toString pageNum ++ " ---\n" ++ pyStrip p.text
  else "--- p." ++ toString pageNum ++ " (빈 페이지) ---"

/-- `text.split("\n", 1)[-1]`: everything after the first newline (the
whole string when there is none). -/
def afterFirstLine (t : String) : String :=
  match pySplit1 t '\n' with
  | [_, rest] => rest
  | _ => t

/-- State of the per-page rendering loop: emitted blocks, the running
text buffer, and the image counter. -/
structure RenderState where
  blocks : List Block
  buf : List String
  img : Nat
deriving Repr, DecidableEq

/-- Flush the text buffer into a single block (`"\n\n".join`). -/
def flushBuf (st : RenderState) : RenderState :=
  if st.buf ≠ [] then
    { st with blocks := st.blocks ++ [Block.text (String.intercalate "\n\n" st.buf)], buf := [] }
  else st

/-- One iteration of the page loop of `read_pdf`.  Note the degraded
branch reproduces the source's conditional expression
`f"--- p.{n} (테이블 포함, 이미지 제한 초과 → 텍스트) ---\n" +
text.split("\n", 1)[-1] if "\n" in text else text`, in which the
annotation binds to the `if` arm, so it is dropped whenever the
extracted text has no newline. -/
def renderStep (d : PdfDoc) (textOnly : Bool) (st : RenderState) (pageIdx : Int) :
    RenderState :=
  match pyIndex d.pages pageIdx with
  | none => st
  | some pg =>
    let pageNum := pageIdx + 1
    if textOnly then { st with buf := st.buf ++ [extractTextSafe pg pageNum] }
    else if hasTables pg ∧ st.img < 5 then
      let st1 := flushBuf st
      if pg.renderOk then
        { blocks := st1.blocks
            ++ [Block.text ("--- 📊 p." ++ toString pageNum ++ " (테이블 포함 → 이미지) ---"),
                Block.image],
          buf := [], img := st1.img + 1 }
      else
        { st1 with buf := [extractTextSafe pg pageNum] }
    else if hasTables pg then
      let t := extractTextSafe pg pageNum
      let entry :=
        if pyIn "\n" t then
          "--- p." ++ toString pageNum ++ " (테이블 포함, 이미지 제한 초과 → 텍스트) ---\n"
            ++ afterFirstLine t
        else t
      { st with buf := st.buf ++ [entry] }
    else { st with buf := st.buf ++ [extractTextSafe pg pageNum] }

/-- The trailing budget-exhausted notice. -/
def imageLimitNotice : String :=
  "\n⚠️ 이미지 렌더링 5p 제한 도달. 나머지 테이블 페이지는 텍스트로 반환됨. "
    ++ "text_only=true로 전체 텍스트 조회 가능."

/-- The tail of `read_pdf` once a page-index list has been resolved:
truncate to 50 pages, emit the metadata block, run the page loop, flush
the remaining buffer, and append the budget notice when the image limit
was reached. -/
def renderMain (d : PdfDoc) (pageIndices : List Int) (rangeLabel : Option String)
    (textOnly : Bool) : List Block :=
  let totalPages : Int := d.pages.length
  let truncated := pageIndices.length > 50
  let pis := pageIndices.take 50
  let meta :=
    "📄 PDF: " ++ d.name ++ " (" ++ toString totalPages ++ "p)\n📖 표시 범위: "
      ++ formatPageRange pis ++ " (" ++ toString pis.length ++ "p)"
      ++ (if truncated then "\n⚠️ 50p 제한 적용됨" else "")
      ++ (match rangeLabel with | some lbl => "\n" ++ lbl | none => "")
      ++ (if textOnly then "\n📝 텍스트 전용 모드" else "")
  let st := pis.foldl (renderStep d textOnly) ⟨[Block.text meta], [], 0⟩
  let st1 := flushBuf st
  if st1.img ≥ 5 then st1.blocks ++ [Block.text imageLimitNotice] else st1.blocks

/-- Python truthiness of an optional string argument (`None` and `""`
are falsy). -/
def truthy : Option String → Bool
  | none => false
  | some s => !s.isEmpty

/-- The unresolved-cancer message, with the available topics (or the
TOC-failure marker for an empty TOC). -/
def availableStr (toc : List TocEntry) : String :=
  if toc.isEmpty then "(TOC 파싱 실패)"
  else String.intercalate ", " (toc.map (·.name))

/-- The not-found block for an unresolved topic query. -/
def cancerNotFoundMsg (q : String) (available : String) : String :=
  "⚠️ 암종 '" ++ q ++ "'을 목차에서 찾을 수 없습니다.\n사용 가능한 암종: " ++ available

/-- The not-found block for an unresolved section query. -/
def sectionNotFoundMsg (q : String) (totalPages : Int) : String :=
  "⚠️ 섹션 '" ++ q ++ "'을 찾을 수 없습니다.\n사용 가능한 섹션: "
    ++ String.intercalate ", " (pdfSections.map (·.1))
    ++ "\n총 " ++ toString totalPages ++ "페이지"

/-- `read_pdf`: dispatch on the query parameters in the source's
precedence order (`search`, then `cancer_type`, then `section`, then
`pages`, then the default TOC listing / first-50-pages view), resolve a
page-index list and render it.  `.error` models an uncaught exception
(only `_parse_page_range` can raise in this model; opening a corrupt
file, which also raises, is outside the model since the document is
taken already open). -/
def readPdf (d : PdfDoc) (pages sectionName cancerType search : Option String)
    (textOnly : Bool) : Except PyError (List Block) :=
  let totalPages : Int := d.pages.length
  let texts := docTexts d
  if truthy search then .ok (searchPdf texts (search.getD "") totalPages)
  else if truthy cancerType then
    let q := cancerType.getD ""
    let ti := parseToc texts
    let pm := findCancerPages ti.1 q totalPages texts ti.2
    if pm.1.isEmpty then
      .ok [Block.text (cancerNotFoundMsg q (availableStr ti.1))]
    else .ok (renderMain d pm.1 (some ("🔍 암종: '" ++ pm.2 ++ "'")) textOnly)
  else if truthy sectionName then
    let q := sectionName.getD ""
    let ti := parseToc texts
    let pis := findSectionPages ti.1 q texts totalPages ti.2
    if pis.isEmpty then
      .ok [Block.text (sectionNotFoundMsg q totalPages)]
    else .ok (renderMain d pis (some ("🔍 섹션: '" ++ q ++ "'")) textOnly)
  else if truthy pages then
    match parsePageRange (pages.getD "") totalPages with
    | .error e => .error e
    | .ok pis => .ok (renderMain d pis none textOnly)
  else
    let ti := parseToc texts
    if ¬ ti.1.isEmpty then .ok (formatTocResponse d.name ti.1 totalPages)
    else .ok (renderMain d ((List.range (min d.pages.length 50)).map (Int.ofNat ·)) none textOnly)

/-- Claim language (C10): a comma-separated token that is a decimal
integer (optionally signed, with surrounding whitespace, as accepted by
`int()`). -/
def decimalToken (t : String) : Bool :=
  (pyInt (pyStrip t)).isSome

/-- Claim language (C10): a token that is a pair of decimal integers
joined by `-` (split at the first `-`, as the range branch does). -/
def hyphenPairToken (t : String) : Bool :=
  pyIn "-" (pyStrip t) &&
    (match pySplit1 (pyStrip t) '-' with
     | [s1, s2] => (pyInt s1).isSome && (pyInt s2).isSome
     | _ => false)

/-- Number of image blocks in a block list. -/
def countImages (bs : List Block) : Nat :=
  (bs.filter fun b => b matches Block.image).length

/-- Number of image blocks in a result (an uncaught exception yields no
blocks). -/
def countImagesE (r : Except PyError (List Block)) : Nat :=
  match r with
  | .error _ => 0
  | .ok bs => countImages bs

/-- The final block of a result, if any. -/
def lastBlockE (r : Except PyError (List Block)) : Option Block :=
  match r with
  | .error _ => none
  | .ok bs => bs.getLast?

/-! ## Basic lemmas: integer ranges and first-result loops -/

theorem mem_intList {x lo : Int} : ∀ {n : Nat}, x ∈ intList lo n ↔ lo ≤ x ∧ x < lo + n := by
  intro n
  induction n generalizing lo with
  | zero =>
    simp only [intList, List.not_mem_nil, false_iff, not_and, not_lt]
    omega
  | succ m ih =>
    simp only [intList, List.mem_cons, ih]
    omega

theorem pairwise_intList {lo : Int} : ∀ {n : Nat}, List.Pairwise (· < ·) (intList lo n) := by
  intro n
  induction n generalizing lo with
  | zero => exact List.Pairwise.nil
  | succ m ih =>
    refine List.Pairwise.cons ?_ ih
    intro x hx
    have := (mem_intList.mp hx).1
    omega

theorem intList_add (lo : Int) (m k : Nat) :
    intList lo (m + k) = intList lo m ++ intList (lo + m) k := by
  induction m generalizing lo with
  | zero => simp [intList]
  | succ n ih =>
    have : n + 1 + k = (n + k) + 1 := by omega
    rw [this]
    simp only [intList, ih, List.cons_append]
    have : lo + 1 + (n : Int) = lo + (n + 1 : Nat) := by push_cast; ring
    rw [this]

theorem mem_pyRange {x s e : Int} : x ∈ pyRange s e ↔ s ≤ x ∧ x < e := by
  rw [pyRange, mem_intList]
  omega

theorem pairwise_pyRange {s e : Int} : List.Pairwise (· < ·) (pyRange s e) :=
  pairwise_intList

theorem pyRange_split {s m e : Int} (h1 : s ≤ m) (h2 : m ≤ e) :
    pyRange s e = pyRange s m ++ pyRange m e := by
  have hm : (e - s).toNat = (m - s).toNat + (e - m).toNat := by omega
  rw [pyRange, hm, intList_add]
  have : s + ((m - s).toNat : Int) = m := by omega
  rw [this]
  rfl

theorem firstSome_nil {α β : Type} (f : α → Option β) : firstSome f [] = none := rfl

theorem firstSome_cons {α β : Type} (f : α → Option β) (x : α) (xs : List α) :
    firstSome f (x :: xs) =
      match f x with
      | some b => some b
      | none => firstSome f xs := rfl

theorem firstSome_eq_none {α β : Type} {f : α → Option β} {l : List α}
    (h : ∀ x ∈ l, f x = none) : firstSome f l = none := by
  induction l with
  | nil => rfl
  | cons x xs ih =>
    rw [firstSome_cons, h x (List.mem_cons_self x xs)]
    exact ih fun y hy => h y (List.mem_cons_of_mem x hy)

theorem firstSome_append {α β : Type} (f : α → Option β) (l₁ l₂ : List α) :
    firstSome f (l₁ ++ l₂) =
      match firstSome f l₁ with
      | some b => some b
      | none => firstSome f l₂ := by
  induction l₁ with
  | nil => rfl
  | cons x xs ih =>
    simp only [List.cons_append, firstSome_cons, ih]
    cases f x <;> rfl

theorem firstSome_first_hit {α β : Type} {f : α → Option β} {l₁ l₂ : List α}
    {x : α} {b : β} (hx : f x = some b) (h₁ : ∀ y ∈ l₁, f y = none) :
    firstSome f (l₁ ++ x :: l₂) = some b := by
  rw [firstSome_append, firstSome_eq_none h₁, firstSome_cons, hx]

/-! ## C1: the matching cascade and its dead third stage -/

theorem charToString_length (c : Char) : c.toString.length = 1 := rfl

theorem stage3_eq_none (toc : List TocEntry) (q : String) : stage3 toc q = none := by
  apply firstSome_eq_none
  intro e _
  have hf : q.data.filter (fun c => decide (c.toString.length > 1)) = [] := by
    apply List.filter_eq_nil_iff.mpr
    intro c _
    simp [charToString_length]
  simp only [stage3, hf, List.any_nil]
  rfl

/-- C1: the spec's matching cascade claims a third, loose
character-overlap stage that resolves queries the first two stages
miss.  In the source the stage-3 guard `len(c) > 1` tests the length of
a single-character string, so stage 3 never matches: for the query
`"위장"` against a TOC entry named `"위암"` (character overlap `위`,
no stage-1 substring match, no stage-2 alias match) the cascade returns
nothing and `_find_cancer_pages` reports the topic as not found. -/
theorem findCancerPages_stage3_dead :
    (∀ (toc : List TocEntry) (q : String), stage3 toc q = none)
    ∧ stage1 [⟨"3", "위암", 5, 15⟩] (pyStrip (pyLower "위장")) = none
    ∧ stage2 [⟨"3", "위암", 5, 15⟩] (pyStrip (pyLower "위장")) cancerAliases = none
    ∧ pyIn "위" (pyLower "위암") = true
    ∧ findCancerPages [⟨"3", "위암", 5, 15⟩] "위장" 100 [] (-1) = ([], "") := by
  refine ⟨stage3_eq_none, by decide, by decide, by decide, ?_⟩
  have h3 := stage3_eq_none [⟨"3", "위암", 5, 15⟩] (pyStrip (pyLower "위장"))
  simp only [findCancerPages, findCancerEntry]
  rw [show stage1 [⟨"3", "위암", 5, 15⟩] (pyStrip (pyLower "위장")) = none from by decide,
    show stage2 [⟨"3", "위암", 5, 15⟩] (pyStrip (pyLower "위장")) cancerAliases = none from by
      decide,
    h3]

/-! ## C6: `_verify_page_with_fuzzy` is idempotent and total -/

/-- C6: fuzzy verification always returns total results and is
idempotent: it returns `expected_idx` unchanged whenever (i) the topic
name yields no usable fragment, or (ii) the expected index is in bounds
and its leading 500-character window contains a fragment, or (iii) no
probe within the radius bound succeeds. -/
theorem verifyPage_idempotent (pages : List String) (expectedIdx : Int)
    (cancerName : String) (totalPages : Int)
    (h : nameParts cancerName = []
      ∨ (0 ≤ expectedIdx ∧ expectedIdx < totalPages
          ∧ hasNamePart pages (nameParts cancerName) expectedIdx = true)
      ∨ (∀ c ∈ probeCandidates expectedIdx 2,
          ¬(0 ≤ c ∧ c < totalPages ∧ hasNamePart pages (nameParts cancerName) c = true))) :
    verifyPage pages expectedIdx cancerName totalPages = expectedIdx := by
  rcases h with h | h | h
  · simp [verifyPage, h]
  · simp only [verifyPage]
    rw [if_neg, if_pos]
    · exact ⟨h.1, h.2.1, by simp [h.2.2]⟩
    · simp only [List.isEmpty_iff]
      intro hnil
      rw [hnil] at h
      simp [hasNamePart] at h
  · simp only [verifyPage]
    by_cases hemp : (nameParts cancerName).isEmpty
    · rw [if_pos hemp]
    · rw [if_neg hemp]
      by_cases hexp : 0 ≤ expectedIdx ∧ expectedIdx < totalPages
          ∧ hasNamePart pages (nameParts cancerName) expectedIdx
      · rw [if_pos hexp]
      · rw [if_neg hexp]
        have : firstSome
            (fun c =>
              if 0 ≤ c ∧ c < totalPages ∧ hasNamePart pages (nameParts cancerName) c then some c
              else none)
            (probeCandidates expectedIdx 2) = none := by
          apply firstSome_eq_none
          intro c hc
          rw [if_neg]
          intro hcontra
          exact h c hc ⟨hcontra.1, hcontra.2.1, hcontra.2.2⟩
        rw [this]

/-- C6 witness: a topic name with no usable fragment is returned
unchanged. -/
theorem verifyPage_idempotent_witness :
    nameParts "/" = [] ∧ verifyPage ["a", "b"] 1 "/" 2 = 1 :=
  ⟨by decide, verifyPage_idempotent ["a", "b"] 1 "/" 2 (Or.inl (by decide))⟩

/-! ## C2: `_calc_toc_offset` -/

theorem pyRange_cons {m e : Int} (h : m < e) : pyRange m e = m :: pyRange (m + 1) e := by
  have hk : (e - m).toNat = (e - (m + 1)).toNat + 1 := by omega
  rw [pyRange, hk]
  rfl

/-- Splitting a first-hit loop over `pyRange lo hi` at the hit `x`. -/
theorem firstSome_pyRange_hit {β : Type} {f : Int → Option β} {lo hi x : Int} {b : β}
    (hmem : x ∈ pyRange lo hi) (hx : f x = some b)
    (hprior : ∀ j ∈ pyRange lo hi, j < x → f j = none) :
    firstSome f (pyRange lo hi) = some b := by
  obtain ⟨h1, h2⟩ := mem_pyRange.mp hmem
  rw [pyRange_split h1 (le_of_lt h2), pyRange_cons h2]
  apply firstSome_first_hit hx
  intro j hj
  have hj' := mem_pyRange.mp hj
  exact hprior j (mem_pyRange.mpr ⟨hj'.1, lt_trans hj'.2 h2⟩) hj'.2

/-- C2 (amended): the offset calibrator behaves as the spec describes
except that the anchor fallback scans the physical window `[30, 50)`
(not the TOC-discovery window `[25, 50)`) and applies the anchor test
and the footer technique to the page's first 500 characters:
(i) with a known TOC index, the first of the following 4 pages bearing a
printed all-digit footer `f` yields `offset = idx - f + 1`;
(ii) when strategy 1 fails, the first page in `[30, min(50, n))` whose
500-character window contains `일반원칙` and ends with an all-digit
footer line yields the analogous offset;
(iii) when both fail, the constant 33. -/
theorem calcTocOffset_strategies (pages : List String) (tocIdx : Int) :
    (∀ scanIdx f, 0 ≤ tocIdx →
      scanIdx ∈ pyRange (tocIdx + 1) (min (tocIdx + 5) (pages.length : Int)) →
      footerOf (pageText pages scanIdx) = some f →
      (∀ j ∈ pyRange (tocIdx + 1) (min (tocIdx + 5) (pages.length : Int)),
        j < scanIdx → footerOf (pageText pages j) = none) →
      calcTocOffset pages tocIdx = scanIdx - f + 1)
    ∧ (∀ i f, offsetStrategy1 pages tocIdx = none →
      i ∈ pyRange 30 (min 50 (pages.length : Int)) →
      pyIn "일반원칙" (pyTake (pageText pages i) 500) = true →
      footerOf (pyTake (pageText pages i) 500) = some f →
      (∀ j ∈ pyRange 30 (min 50 (pages.length : Int)), j < i →
        ¬(pyIn "일반원칙" (pyTake (pageText pages j) 500) = true
          ∧ (footerOf (pyTake (pageText pages j) 500)).isSome = true)) →
      calcTocOffset pages tocIdx = i - f + 1)
    ∧ (offsetStrategy1 pages tocIdx = none → offsetStrategy2 pages = none →
      calcTocOffset pages tocIdx = 33) := by
  refine ⟨?_, ?_, ?_⟩
  · intro scanIdx f htoc hmem hfoot hprior
    have h1 : offsetStrategy1 pages tocIdx = some (scanIdx - f + 1) := by
      rw [offsetStrategy1, if_pos htoc]
      apply firstSome_pyRange_hit hmem
      · rw [hfoot]; rfl
      · intro j hj hjlt
        rw [hprior j hj hjlt]; rfl
    simp [calcTocOffset, h1]
  · intro i f h1 hmem hanchor hfoot hprior
    have h2 : offsetStrategy2 pages = some (i - f + 1) := by
      rw [offsetStrategy2]
      apply firstSome_pyRange_hit hmem
      · simp only [hanchor, if_true, hfoot]; rfl
      · intro j hj hjlt
        simp only
        by_cases ha : pyIn "일반원칙" (pyTake (pageText pages j) 500) = true
        · rw [if_pos ha]
          cases hcase : footerOf (pyTake (pageText pages j) 500) with
          | none => rfl
          | some v =>
            exact absurd ⟨ha, by rw [hcase]; rfl⟩ (hprior j hj hjlt)
        · rw [if_neg ha]
    simp [calcTocOffset, h1, h2]
  · intro h1 h2
    simp [calcTocOffset, h1, h2]

/-- C2 witness: both strategies fail on the empty document and the
constant fallback is produced. -/
theorem calcTocOffset_strategies_witness :
    offsetStrategy1 [] (-1) = none ∧ offsetStrategy2 [] = none
      ∧ calcTocOffset [] (-1) = 33 :=
  ⟨by decide, by decide, (calcTocOffset_strategies [] (-1)).2.2 (by decide) (by decide)⟩

/-- C2 counterexample: the spec says the anchor fallback scans the
"same 25–50 window" as TOC discovery.  On a 31-page document whose only
qualifying page (anchor `일반원칙` and printed footer `12`) is physical
index 29 — inside `[25, 50)` but outside the code's `[30, 50)` — the
code falls through to the constant 33 instead of computing
`29 - 12 + 1 = 18`. -/
theorem calcTocOffset_window_counterexample :
    calcTocOffset ((List.replicate 29 "") ++ ["일반원칙\n12", "x"]) (-1) = 33
    ∧ pyIn "일반원칙"
        (pyTake (pageText ((List.replicate 29 "") ++ ["일반원칙\n12", "x"]) 29) 500) = true
    ∧ footerOf (pyTake (pageText ((List.replicate 29 "") ++ ["일반원칙\n12", "x"]) 29) 500)
        = some 12
    ∧ (29 : Int) ∈ pyRange 25 (min 50 (((List.replicate 29 "") ++ ["일반원칙\n12", "x"] : List String).length : Int))
    ∧ (33 : Int) ≠ 29 - 12 + 1 := by
  refine ⟨by decide, by decide, by decide, ?_, by decide⟩
  rw [mem_pyRange]
  decide

/-! ## C4 and C10: `_parse_page_range` -/

theorem data_mk (l : List Char) : (String.mk l).data = l := rfl

theorem dropWhile_eq_self_of {α : Type} {p : α → Bool} {l : List α}
    (h : ∀ c ∈ l, p c = false) : l.dropWhile p = l := by
  cases l with
  | nil => rfl
  | cons c rest =>
    exact List.dropWhile_cons_of_neg (by simp [h c (List.mem_cons_self c rest)])

theorem stripChars_of_no_space {l : List Char} (h : ∀ c ∈ l, pyIsSpace c = false) :
    stripChars l = l := by
  rw [stripChars, dropWhile_eq_self_of h, dropWhile_eq_self_of, List.reverse_reverse]
  intro c hc
  exact h c (List.mem_reverse.mp hc)

theorem pyIsDigit_ne_char {c d : Char} (h : pyIsDigit c = true) (hd : pyIsDigit d = false) :
    c ≠ d := by
  intro he
  subst he
  rw [h] at hd
  cases hd

theorem space_not_digit {c : Char} (h : pyIsSpace c = true) : pyIsDigit c = false := by
  simp only [pyIsSpace, Bool.or_eq_true, decide_eq_true_eq] at h
  rcases h with ((((h | h) | h) | h) | h) | h <;> subst h <;> decide

theorem pyIsDigit_not_space {c : Char} (h : pyIsDigit c = true) : pyIsSpace c = false := by
  cases hs : pyIsSpace c with
  | false => rfl
  | true => rw [space_not_digit hs] at h; cases h

theorem splitOnChar_not_mem {sep : Char} {l : List Char} (h : sep ∉ l) :
    splitOnChar sep l = [l] := by
  induction l with
  | nil => rfl
  | cons c rest ih =>
    have hc : ¬(c = sep) := fun he => h (he ▸ List.mem_cons_self c rest)
    have hrest : sep ∉ rest := fun hm => h (List.mem_cons_of_mem c hm)
    simp only [splitOnChar, if_neg hc, ih hrest]

theorem splitOnChar_append_sep {sep : Char} {da db : List Char} (h : sep ∉ da) :
    splitOnChar sep (da ++ sep :: db) = da :: splitOnChar sep db := by
  induction da with
  | nil => simp [splitOnChar]
  | cons c rest ih =>
    have hc : ¬(c = sep) := fun he => h (he ▸ List.mem_cons_self c rest)
    have hrest : sep ∉ rest := fun hm => h (List.mem_cons_of_mem c hm)
    simp only [List.cons_append, splitOnChar, if_neg hc, List.append_eq]
    rw [ih hrest]

/-- A run of digits parses as its decimal value. -/
theorem pyInt_digits {da : List Char} (hne : da ≠ []) (hdig : ∀ c ∈ da, pyIsDigit c = true) :
    pyInt (String.mk da) = some (digitsVal da : Int) := by
  cases da with
  | nil => exact absurd rfl hne
  | cons c r =>
    have hc := hdig c (List.mem_cons_self c r)
    have hplus : ¬(c = '+') := pyIsDigit_ne_char hc (by decide)
    have hminus : ¬(c = '-') := pyIsDigit_ne_char hc (by decide)
    have hdigits : isDigits (c :: r) = true := by
      simp only [isDigits, List.isEmpty_cons, Bool.not_false, Bool.true_and, List.all_eq_true]
      exact fun x hx => hdig x hx
    simp only [pyInt, data_mk,
      stripChars_of_no_space (fun x hx => pyIsDigit_not_space (hdig x hx)),
      if_neg hplus, if_neg hminus, hdigits, if_true]

theorem subList_middle (da db : List Char) (c : Char) : subList [c] (da ++ c :: db) = true := by
  induction da with
  | nil =>
    simp only [List.nil_append, subList, List.isPrefixOf, Bool.or_eq_true]
    left
    simp
  | cons a rest ih =>
    simp only [List.cons_append, subList, Bool.or_eq_true]
    right
    exact ih

theorem pairwise_ne_of_lt {l : List Int} (h : List.Pairwise (· < ·) l) : l.Nodup :=
  h.imp fun hlt => ne_of_lt hlt

/-- `sorted(set(l))` is the identity on an ascending duplicate-free
list. -/
theorem pySortedSet_of_sorted {l : List Int} (h : List.Pairwise (· < ·) l) :
    pySortedSet l = l := by
  rw [pySortedSet, (pairwise_ne_of_lt h).dedup]
  exact List.Sorted.insertionSort_eq (h.imp fun hlt => le_of_lt hlt)

/-- C4: on a well-formed range token `a-b` (digit strings, `a ≤ b`),
`_parse_page_range` returns exactly the set
`{a-1, …, b-1} ∩ [0, total-1]` as an ascending duplicate-free list; the
single page `"5"` gives `{4}` and `"1,3,7-10"` gives
`{0,2,6,7,8,9}`. -/
theorem parsePageRange_spec :
    (∀ (da db : List Char) (total : Int),
      da ≠ [] → db ≠ [] →
      (∀ c ∈ da, pyIsDigit c = true) → (∀ c ∈ db, pyIsDigit c = true) →
      (digitsVal da : Int) ≤ (digitsVal db : Int) →
      parsePageRange (String.mk (da ++ '-' :: db)) total
        = .ok (pyRange (max ((digitsVal da : Int) - 1) 0)
            (min ((digitsVal db : Int) - 1) (total - 1) + 1))
      ∧ List.Pairwise (· < ·)
          (pyRange (max ((digitsVal da : Int) - 1) 0)
            (min ((digitsVal db : Int) - 1) (total - 1) + 1))
      ∧ (∀ x : Int,
          x ∈ pyRange (max ((digitsVal da : Int) - 1) 0)
              (min ((digitsVal db : Int) - 1) (total - 1) + 1)
            ↔ ((digitsVal da : Int) - 1 ≤ x ∧ x ≤ (digitsVal db : Int) - 1
                ∧ 0 ≤ x ∧ x ≤ total - 1)))
    ∧ parsePageRange "5" 100 = .ok [4]
    ∧ parsePageRange "1,3,7-10" 100 = .ok [0, 2, 6, 7, 8, 9] := by
  refine ⟨?_, by decide, by decide⟩
  intro da db total hne1 hne2 hdig1 hdig2 _hle
  have hnotspace : ∀ c ∈ da ++ '-' :: db, pyIsSpace c = false := by
    intro c hc
    rcases List.mem_append.mp hc with hc | hc
    · exact pyIsDigit_not_space (hdig1 c hc)
    · rcases List.mem_cons.mp hc with hc | hc
      · subst hc; decide
      · exact pyIsDigit_not_space (hdig2 c hc)
  have hcomma : (',' : Char) ∉ da ++ '-' :: db := by
    intro hmem
    rcases List.mem_append.mp hmem with h | h
    · exact absurd (hdig1 _ h) (by decide)
    · rcases List.mem_cons.mp h with h | h
      · exact absurd h (by decide)
      · exact absurd (hdig2 _ h) (by decide)
  have hda : ('-' : Char) ∉ da := fun hm => absurd (hdig1 _ hm) (by decide)
  have hdb : ('-' : Char) ∉ db := fun hm => absurd (hdig2 _ hm) (by decide)
  have hsplit : pySplit (String.mk (da ++ '-' :: db)) ',' = [String.mk (da ++ '-' :: db)] := by
    rw [pySplit, data_mk, splitOnChar_not_mem hcomma]
    rfl
  have hstrip : pyStrip (String.mk (da ++ '-' :: db)) = String.mk (da ++ '-' :: db) := by
    rw [pyStrip, data_mk, stripChars_of_no_space hnotspace]
  have hdash : pyIn "-" (String.mk (da ++ '-' :: db)) = true := by
    rw [pyIn, data_mk, show "-".data = ['-'] from rfl, subList_middle, Bool.or_true]
  have hsplit1 : pySplit1 (String.mk (da ++ '-' :: db)) '-' = [String.mk da, String.mk db] := by
    rw [pySplit1, data_mk, splitOnChar_append_sep hda, splitOnChar_not_mem hdb]
    simp [List.intercalate]
  have hpart : parsePart total (String.mk (da ++ '-' :: db))
      = .ok (pyRange (max ((digitsVal da : Int) - 1) 0)
          (min ((digitsVal db : Int) - 1) (total - 1) + 1)) := by
    simp only [parsePart, hstrip, hdash, if_true, hsplit1,
      pyInt_digits hne1 hdig1, pyInt_digits hne2 hdig2]
  refine ⟨?_, pairwise_pyRange, ?_⟩
  · simp only [parsePageRange, hsplit, parseParts, hpart, List.append_nil, Except.map]
    rw [pySortedSet_of_sorted pairwise_pyRange]
  · intro x
    rw [mem_pyRange]
    omega

/-- C4 witness: the range token `7-9` in a 20-page document. -/
theorem parsePageRange_spec_witness :
    parsePageRange (String.mk (['7'] ++ '-' :: ['9'])) 20
      = .ok (pyRange (max ((digitsVal ['7'] : Int) - 1) 0)
          (min ((digitsVal ['9'] : Int) - 1) (20 - 1) + 1)) :=
  (parsePageRange_spec.1 ['7'] ['9'] 20 (by decide) (by decide)
    (by decide) (by decide) (by decide)).1

theorem parsePart_error_of_malformed (total : Int) {t : String}
    (h1 : decimalToken t = false) (h2 : hyphenPairToken t = false) :
    parsePart total t = .error .valueError := by
  simp only [parsePart]
  by_cases hdash : pyIn "-" (pyStrip t) = true
  · rw [if_pos hdash]
    rw [hyphenPairToken, hdash, Bool.true_and] at h2
    cases hs : pySplit1 (pyStrip t) '-' with
    | nil => rfl
    | cons s1 rest =>
      cases rest with
      | nil => rfl
      | cons s2 rest2 =>
        cases rest2 with
        | nil =>
          rw [hs] at h2
          cases hi1 : pyInt s1 with
          | none => simp [hi1]
          | some a =>
            cases hi2 : pyInt s2 with
            | none => simp [hi1, hi2]
            | some b => simp [hi1, hi2] at h2
        | cons s3 rest3 => rfl
  · rw [if_neg hdash]
    rw [decimalToken] at h1
    cases hi : pyInt (pyStrip t) with
    | none => rfl
    | some a =>
      rw [hi] at h1
      simp at h1

theorem parseParts_error_of_malformed (total : Int) {parts : List String} {t : String}
    (hmem : t ∈ parts) (h1 : decimalToken t = false) (h2 : hyphenPairToken t = false) :
    parseParts total parts = .error .valueError := by
  induction parts with
  | nil => cases hmem
  | cons p ps ih =>
    rcases List.mem_cons.mp hmem with he | hm
    · subst he
      simp only [parseParts, parsePart_error_of_malformed total h1 h2]
    · simp only [parseParts]
      cases hp : parsePart total p with
      | error e => cases e; rfl
      | ok xs => rw [ih hm]

/-- C10: when the pages string contains a token that is neither a
decimal integer nor a pair of decimal integers joined by `-`, the
`ValueError` raised by `int()` propagates out of `read_pdf` (instead of
a structured not-found text block). -/
theorem readPdf_bad_pages_raises (d : PdfDoc) (s : String) (tOnly : Bool)
    (hne : ¬ s.isEmpty = true)
    (hbad : ∃ tok ∈ pySplit s ',', decimalToken tok = false ∧ hyphenPairToken tok = false) :
    readPdf d (some s) none none none tOnly = .error .valueError := by
  obtain ⟨tok, hmem, h1, h2⟩ := hbad
  have hp : parsePageRange s (d.pages.length : Int) = .error .valueError := by
    rw [parsePageRange, parseParts_error_of_malformed _ hmem h1 h2]
    rfl
  have htr : truthy (some s) = true := by
    simp only [truthy, Bool.not_eq_true']
    exact Bool.not_eq_true _ ▸ Bool.eq_false_iff.mpr (fun hab => hne hab)
  simp only [readPdf, htr, if_pos, Option.getD_some,
    show truthy none = false from rfl, Bool.false_eq_true, if_false]
  rw [hp]

/-- C10 witness: the token `abc` raises. -/
theorem readPdf_bad_pages_raises_witness :
    readPdf ⟨"t", [⟨"x", none, true⟩]⟩ (some "abc") none none none false
      = .error .valueError :=
  readPdf_bad_pages_raises ⟨"t", [⟨"x", none, true⟩]⟩ "abc" false (by decide)
    ⟨"abc", by decide, by decide, by decide⟩

/-! ## C3 and C8: the image budget of the hybrid renderer -/

theorem countImages_append (l1 l2 : List Block) :
    countImages (l1 ++ l2) = countImages l1 + countImages l2 := by
  simp [countImages, List.filter_append]

theorem countImages_text (s : String) : countImages [Block.text s] = 0 := rfl

/-- Flushing the buffer adds only a text block. -/
theorem flushBuf_count (st : RenderState) :
    countImages (flushBuf st).blocks = countImages st.blocks
    ∧ (flushBuf st).img = st.img := by
  rw [flushBuf]
  by_cases h : st.buf ≠ []
  · rw [if_pos h]
    simp [countImages_append, countImages_text]
  · rw [if_neg h]
    exact ⟨rfl, rfl⟩

/-- One loop step preserves the budget invariant: the blocks emitted so
far contain exactly `img` images and `img` never exceeds 5. -/
theorem renderStep_invariant (d : PdfDoc) (textOnly : Bool) (st : RenderState) (i : Int)
    (h1 : countImages st.blocks = st.img) (h2 : st.img ≤ 5) :
    countImages (renderStep d textOnly st i).blocks = (renderStep d textOnly st i).img
    ∧ (renderStep d textOnly st i).img ≤ 5 := by
  cases hpi : pyIndex d.pages i with
  | none =>
    simp only [renderStep, hpi]
    exact ⟨h1, h2⟩
  | some pg =>
    simp only [renderStep, hpi]
    by_cases ht : textOnly = true
    · rw [if_pos ht]
      exact ⟨h1, h2⟩
    · rw [if_neg ht]
      by_cases htab : hasTables pg = true ∧ st.img < 5
      · rw [if_pos htab]
        obtain ⟨hf1, hf2⟩ := flushBuf_count st
        obtain ⟨-, himg⟩ := htab
        by_cases hr : pg.renderOk = true
        · rw [if_pos hr]
          constructor
          · simp only [countImages_append, hf1, h1, hf2]
            rfl
          · simp only [hf2]
            omega
        · rw [if_neg hr]
          exact ⟨by simp only [hf1, h1, hf2], by simp only [hf2]; exact h2⟩
      · rw [if_neg htab]
        by_cases htab2 : hasTables pg = true
        · rw [if_pos htab2]
          exact ⟨h1, h2⟩
        · rw [if_neg htab2]
          exact ⟨h1, h2⟩

/-- The loop preserves the invariant. -/
theorem renderLoop_invariant (d : PdfDoc) (textOnly : Bool) (l : List Int) :
    ∀ (st : RenderState), countImages st.blocks = st.img → st.img ≤ 5 →
      countImages (l.foldl (renderStep d textOnly) st).blocks
          = (l.foldl (renderStep d textOnly) st).img
      ∧ (l.foldl (renderStep d textOnly) st).img ≤ 5 := by
  induction l with
  | nil => intro st h1 h2; exact ⟨h1, h2⟩
  | cons i rest ih =>
    intro st h1 h2
    obtain ⟨h1', h2'⟩ := renderStep_invariant d textOnly st i h1 h2
    exact ih _ h1' h2'

/-- The flush-and-notice tail of the renderer keeps the image count of
any budget-respecting loop state at 5 or fewer. -/
theorem countImages_renderCore (d : PdfDoc) (tOnly : Bool) (l : List Int)
    (st0 : RenderState) (h1 : countImages st0.blocks = st0.img) (h2 : st0.img ≤ 5) :
    countImages
      (if (flushBuf (l.foldl (renderStep d tOnly) st0)).img ≥ 5 then
        (flushBuf (l.foldl (renderStep d tOnly) st0)).blocks ++ [Block.text imageLimitNotice]
      else (flushBuf (l.foldl (renderStep d tOnly) st0)).blocks) ≤ 5 := by
  obtain ⟨hi1, hi2⟩ := renderLoop_invariant d tOnly l st0 h1 h2
  obtain ⟨hf1, hf2⟩ := flushBuf_count (l.foldl (renderStep d tOnly) st0)
  by_cases hl : (flushBuf (l.foldl (renderStep d tOnly) st0)).img ≥ 5
  · rw [if_pos hl, countImages_append, hf1, hi1, countImages_text]
    omega
  · rw [if_neg hl, hf1, hi1]
    exact hi2

/-- The rendered output of a resolved page list never holds more than 5
images. -/
theorem countImages_renderMain (d : PdfDoc) (pis : List Int) (lbl : Option String)
    (tOnly : Bool) : countImages (renderMain d pis lbl tOnly) ≤ 5 := by
  simp only [renderMain]
  exact countImages_renderCore d tOnly (pis.take 50) ⟨[Block.text _], [], 0⟩ rfl (by simp)

theorem countImages_searchPdf (pages : List String) (k : String) (tp : Int) :
    countImages (searchPdf pages k tp) = 0 := by
  rw [searchPdf]
  by_cases h : (searchMatches pages k).isEmpty
  · rw [if_pos h]; rfl
  · rw [if_neg h]; rfl

theorem countImages_formatToc (n : String) (toc : List TocEntry) (tp : Int) :
    countImages (formatTocResponse n toc tp) = 0 := rfl

/-- The document used by the budget-scenario parts of C3: 10 pages,
each bearing a table, all rasterisable. -/
def budgetDoc : PdfDoc :=
  ⟨"t.pdf", List.replicate 10 ⟨"t", some 1, true⟩⟩

/-- C3: (i) `read_pdf` never emits more than 5 image blocks, whatever
the query and however many table pages are in range; (ii) on a 10-page
document whose every page has a table, requesting all 10 pages yields
exactly 5 image blocks, and (iii) the final block is the trailing text
notice that the remaining table pages were degraded to text. -/
theorem readPdf_image_budget :
    (∀ (d : PdfDoc) (p sec c s : Option String) (t : Bool),
      countImagesE (readPdf d p sec c s t) ≤ 5)
    ∧ countImagesE (readPdf budgetDoc (some "1-10") none none none false) = 5
    ∧ lastBlockE (readPdf budgetDoc (some "1-10") none none none false)
        = some (Block.text imageLimitNotice) := by
  refine ⟨?_, by decide, by decide⟩
  intro d p sec c s t
  simp only [readPdf]
  split
  · simp only [countImagesE, countImages_searchPdf]
    omega
  · split
    · split
      · simp [countImagesE, countImages, countImages_text]
      · simp only [countImagesE]
        exact countImages_renderMain _ _ _ _
    · split
      · split
        · simp [countImagesE, countImages, countImages_text]
        · simp only [countImagesE]
          exact countImages_renderMain _ _ _ _
      · split
        · split
          · simp [countImagesE]
          · simp only [countImagesE]
            exact countImages_renderMain _ _ _ _
        · split
          · simp only [countImagesE, countImages_formatToc]
            omega
          · simp only [countImagesE]
            exact countImages_renderMain _ _ _ _

/-- The document for C8: six table-bearing pages, the sixth with no
extractable text. -/
def degradedDoc : PdfDoc :=
  ⟨"t.pdf", List.replicate 5 (⟨"x", some 1, true⟩ : PdfPage) ++ [⟨"", some 1, true⟩]⟩

/-- C8: a table-bearing page processed after the image budget is
exhausted is extracted as text rather than rendered — but, contrary to
the claim, its text is not always annotated as a degraded table page.
The source builds
`f"--- p.{n} (테이블 포함, 이미지 제한 초과 → 텍스트) ---\n" + tail if
"\n" in text else text`, and Python's conditional binds the whole
left-hand concatenation, so when the extracted text has no newline
(an empty page) the raw unannotated text is buffered.  Here page 6
(table-bearing, budget already exhausted by pages 1–5) is emitted as
`--- p.6 (빈 페이지) ---` with no degraded-table annotation. -/
theorem readPdf_degraded_annotation_dropped :
    hasTables ⟨"", some 1, true⟩ = true
    ∧ readPdf degradedDoc (some "1-6") none none none false
      = .ok [Block.text "📄 PDF: t.pdf (6p)\n📖 표시 범위: p.1-6 (6p)",
          Block.text "--- 📊 p.1 (테이블 포함 → 이미지) ---", Block.image,
          Block.text "--- 📊 p.2 (테이블 포함 → 이미지) ---", Block.image,
          Block.text "--- 📊 p.3 (테이블 포함 → 이미지) ---", Block.image,
          Block.text "--- 📊 p.4 (테이블 포함 → 이미지) ---", Block.image,
          Block.text "--- 📊 p.5 (테이블 포함 → 이미지) ---", Block.image,
          Block.text "--- p.6 (빈 페이지) ---",
          Block.text imageLimitNotice]
    ∧ pyIn "이미지 제한 초과" "--- p.6 (빈 페이지) ---" = false
    ∧ countImagesE (readPdf degradedDoc (some "1-6") none none none false) = 5 := by
  exact ⟨by decide, by decide, by decide, by decide⟩

/-! ## C5: the TOC entry list is sorted, deduplicated, first wins -/

theorem mem_insertByPage {e x : RawEntry} {l : List RawEntry} :
    x ∈ insertByPage e l ↔ x = e ∨ x ∈ l := by
  induction l with
  | nil => simp [insertByPage]
  | cons y ys ih =>
    by_cases h : e.page ≤ y.page
    · simp [insertByPage, if_pos h]
    · simp only [insertByPage, if_neg h, List.mem_cons, ih]
      tauto

theorem sorted_insertByPage {e : RawEntry} {l : List RawEntry}
    (h : List.Pairwise (fun a b => a.page ≤ b.page) l) :
    List.Pairwise (fun a b => a.page ≤ b.page) (insertByPage e l) := by
  induction l with
  | nil => simp [insertByPage]
  | cons y ys ih =>
    rcases List.pairwise_cons.mp h with ⟨hy, hys⟩
    by_cases hle : e.page ≤ y.page
    · rw [insertByPage, if_pos hle]
      refine List.pairwise_cons.mpr ⟨?_, h⟩
      intro z hz
      rcases List.mem_cons.mp hz with hz | hz
      · exact hz ▸ hle
      · exact le_trans hle (hy z hz)
    · rw [insertByPage, if_neg hle]
      refine List.pairwise_cons.mpr ⟨?_, ih hys⟩
      intro z hz
      rcases mem_insertByPage.mp hz with hz | hz
      · exact hz ▸ le_of_not_le hle
      · exact hy z hz

theorem sorted_sortByPage (l : List RawEntry) :
    List.Pairwise (fun a b => a.page ≤ b.page) (sortByPage l) := by
  induction l with
  | nil => exact List.Pairwise.nil
  | cons x xs ih => exact sorted_insertByPage ih

theorem filter_insertByPage (e : RawEntry) (l : List RawEntry) (p : Int) :
    (insertByPage e l).filter (fun r => r.page == p)
      = if e.page = p then e :: l.filter (fun r => r.page == p)
        else l.filter (fun r => r.page == p) := by
  induction l with
  | nil =>
    rw [insertByPage]
    by_cases h : e.page = p
    · rw [List.filter_cons, if_pos (by simp [h]), if_pos h]
    · rw [List.filter_cons, if_neg (by simp [h]), if_neg h]
  | cons y ys ih =>
    by_cases hle : e.page ≤ y.page
    · rw [insertByPage, if_pos hle, List.filter_cons]
      by_cases h : e.page = p
      · rw [if_pos (by simp [h]), if_pos h]
      · rw [if_neg (by simp [h]), if_neg h]
    · rw [insertByPage, if_neg hle]
      by_cases hy : y.page = p
      · have he : ¬(e.page = p) := by omega
        rw [List.filter_cons, if_pos (by simp [hy]), ih, if_neg he, if_neg he,
          List.filter_cons, if_pos (by simp [hy])]
      · rw [List.filter_cons, if_neg (by simp [hy]), ih]
        by_cases he : e.page = p
        · rw [if_pos he, if_pos he, List.filter_cons, if_neg (by simp [hy])]
        · rw [if_neg he, if_neg he, List.filter_cons, if_neg (by simp [hy])]

theorem filter_sortByPage (l : List RawEntry) (p : Int) :
    (sortByPage l).filter (fun r => r.page == p) = l.filter (fun r => r.page == p) := by
  induction l with
  | nil => rfl
  | cons x xs ih =>
    rw [sortByPage, filter_insertByPage]
    by_cases h : x.page = p
    · rw [if_pos h, ih, List.filter_cons, if_pos (by simp [h])]
    · rw [if_neg h, ih, List.filter_cons, if_neg (by simp [h])]

theorem mem_dedupByPage {seen : List Int} {l : List RawEntry} {e : RawEntry}
    (h : e ∈ dedupByPage seen l) : e ∈ l := by
  induction l generalizing seen with
  | nil => cases h
  | cons x xs ih =>
    rw [dedupByPage] at h
    by_cases hx : x.page ∈ seen
    · rw [if_pos hx] at h
      exact List.mem_cons_of_mem x (ih h)
    · rw [if_neg hx] at h
      rcases List.mem_cons.mp h with h | h
      · exact h ▸ List.mem_cons_self x xs
      · exact List.mem_cons_of_mem x (ih h)

/-- An entry surviving deduplication is the first entry of the input
list bearing its printed page (and its page was not previously seen). -/
theorem dedupByPage_first {seen : List Int} {l : List RawEntry} {e : RawEntry}
    (h : e ∈ dedupByPage seen l) :
    e.page ∉ seen
    ∧ firstSome (fun r => if r.page = e.page then some r else none) l = some e := by
  induction l generalizing seen with
  | nil => cases h
  | cons x xs ih =>
    rw [dedupByPage] at h
    by_cases hx : x.page ∈ seen
    · rw [if_pos hx] at h
      obtain ⟨hn, hf⟩ := ih h
      have hne : ¬(x.page = e.page) := fun he => hn (he ▸ hx)
      exact ⟨hn, by rw [firstSome_cons, if_neg hne, hf]⟩
    · rw [if_neg hx] at h
      rcases List.mem_cons.mp h with h | h
      · subst h
        exact ⟨hx, by rw [firstSome_cons, if_pos rfl]⟩
      · obtain ⟨hn, hf⟩ := ih h
        have hne : ¬(x.page = e.page) :=
          fun he => hn (List.mem_cons.mpr (Or.inl he.symm))
        have hnseen : e.page ∉ seen :=
          fun hs => hn (List.mem_cons.mpr (Or.inr hs))
        exact ⟨hnseen, by rw [firstSome_cons, if_neg hne, hf]⟩

theorem pairwise_dedupByPage {l : List RawEntry}
    (h : List.Pairwise (fun a b => a.page ≤ b.page) l) (seen : List Int) :
    List.Pairwise (fun a b => a.page < b.page) (dedupByPage seen l) := by
  induction l generalizing seen with
  | nil => exact List.Pairwise.nil
  | cons x xs ih =>
    rcases List.pairwise_cons.mp h with ⟨hx, hxs⟩
    rw [dedupByPage]
    by_cases hseen : x.page ∈ seen
    · rw [if_pos hseen]
      exact ih hxs seen
    · rw [if_neg hseen]
      refine List.pairwise_cons.mpr ⟨?_, ih hxs (x.page :: seen)⟩
      intro y hy
      have h1 := (dedupByPage_first hy).1
      have h2 : y ∈ xs := mem_dedupByPage hy
      have h3 : x.page ≤ y.page := hx y h2
      have h4 : y.page ≠ x.page := fun he => h1 (he ▸ List.mem_cons_self _ _)
      omega

theorem attachEnds_pageMap (secs : List SectionEntry) (l : List RawEntry) :
    (attachEnds secs l).map (fun e => e.page) = l.map (fun r => r.page) := by
  induction l with
  | nil => rfl
  | cons e rest ih =>
    cases rest with
    | nil => rfl
    | cons nxt rest2 =>
      simp only [attachEnds, List.map_cons] at ih ⊢
      rw [ih]

theorem attachEnds_mem {secs : List SectionEntry} {l : List RawEntry} {e : TocEntry}
    (h : e ∈ attachEnds secs l) : (⟨e.num, e.name, e.page⟩ : RawEntry) ∈ l := by
  induction l with
  | nil => cases h
  | cons x rest ih =>
    cases rest with
    | nil =>
      rw [attachEnds] at h
      rcases List.mem_cons.mp h with h | h
      · subst h
        exact List.mem_cons_self _ _
      · cases h
    | cons nxt rest2 =>
      rw [attachEnds] at h
      rcases List.mem_cons.mp h with h | h
      · subst h
        exact List.mem_cons_self _ _
      · exact List.mem_cons_of_mem _ (ih h)

/-- `first r with page p in l`, as produced by the collection loop. -/
theorem firstSome_page_eq_filter_head (l : List RawEntry) (p : Int) :
    firstSome (fun r => if r.page = p then some r else none) l
      = (l.filter (fun r => r.page == p)).head? := by
  induction l with
  | nil => rfl
  | cons x xs ih =>
    by_cases h : x.page = p
    · rw [firstSome_cons, if_pos h, List.filter_cons, if_pos (by simp [h])]
      rfl
    · rw [firstSome_cons, if_neg h, List.filter_cons, if_neg (by simp [h]), ih]

/-- C5: the entry list `_parse_toc` produces is strictly ascending in
printed page (so at most one entry per page), and each surviving entry
is the first-encountered collected entry with its printed page. -/
theorem parseToc_sorted_unique (pages : List String) :
    List.Pairwise (fun a b => a.page < b.page) (parseToc pages).1
    ∧ ∀ e ∈ (parseToc pages).1,
      firstSome (fun r => if r.page = e.page then some r else none) (tocCollected pages)
        = some (⟨e.num, e.name, e.page⟩ : RawEntry) := by
  have hsorted := sorted_sortByPage (tocCollected pages)
  have hded := pairwise_dedupByPage hsorted []
  constructor
  · have hmap : List.Pairwise (· < ·)
        ((attachEnds (tocSections pages) (dedupByPage [] (sortByPage (tocCollected pages)))).map
          (fun e => e.page)) := by
      rw [attachEnds_pageMap]
      exact (List.pairwise_map).mpr hded
    simpa only [parseToc, List.pairwise_map] using (List.pairwise_map).mp hmap
  · intro e he
    simp only [parseToc] at he
    have hraw := attachEnds_mem he
    obtain ⟨-, hf⟩ := dedupByPage_first hraw
    rw [firstSome_page_eq_filter_head] at hf ⊢
    rw [← filter_sortByPage]
    exact hf

/-- A 26-page document whose page 25 is a two-entry contents page. -/
def tocDemoPages : List String :=
  (List.replicate 25 "") ++ ["일반원칙 암종별\n1. 위암····21 2. 식도암····25"]

/-- C5 witness: the first entry of the demo TOC. -/
theorem parseToc_sorted_unique_witness :
    (⟨"1", "위암", 21, 24⟩ : TocEntry) ∈ (parseToc tocDemoPages).1
    ∧ firstSome (fun r => if r.page = (21 : Int) then some r else none)
        (tocCollected tocDemoPages) = some (⟨"1", "위암", 21⟩ : RawEntry) :=
  ⟨by decide,
   (parseToc_sorted_unique tocDemoPages).2 ⟨"1", "위암", 21, 24⟩ (by decide)⟩

/-! ## C7: unresolved queries yield a descriptive block, never an error -/

theorem bestTocPage_of_noToc {pages : List String}
    (h : ∀ i ∈ (List.range (min 50 pages.length)).drop 25, tocAnchored (pages.getD i "") = false) :
    bestTocPage pages = -1 := by
  rw [bestTocPage]
  have hfold : ∀ (l : List Nat) (acc : Int × Nat),
      (∀ i ∈ l, tocAnchored (pages.getD i "") = false) →
      (l.foldl
        (fun best i =>
          let t := pages.getD i ""
          if tocAnchored t then
            let c := (entryStartScan t.data.length 0 t.data).length
            if c > best.2 then ((i : Int), c) else best
          else best)
        acc) = acc := by
    intro l
    induction l with
    | nil => intro acc _; rfl
    | cons i rest ih =>
      intro acc hall
      rw [List.foldl_cons]
      have hi := hall i (List.mem_cons_self i rest)
      simp only [hi, Bool.false_eq_true, if_false]
      exact ih acc fun j hj => hall j (List.mem_cons_of_mem i hj)
  rw [hfold _ _ h]

theorem parseToc_of_noToc {pages : List String}
    (h : ∀ i ∈ (List.range (min 50 pages.length)).drop 25, tocAnchored (pages.getD i "") = false) :
    parseToc pages = ([], -1) := by
  have hb := bestTocPage_of_noToc h
  rw [parseToc, hb]
  have hc : tocCollected pages = [] := by
    rw [tocCollected, hb, if_pos]
    decide
  have hs : tocSections pages = [] := by
    rw [tocSections, hb, if_pos]
    decide
  rw [hc, hs]
  rfl

theorem stage2_nil (q : String) (rows : List (String × List String)) :
    stage2 [] q rows = none := by
  induction rows with
  | nil => rfl
  | cons r rest ih =>
    rw [stage2]
    by_cases hr : (pyIn q r.1 || r.2.any fun a => pyIn a q) = true
    · rw [if_pos hr]
      exact ih
    · rw [if_neg hr]
      exact ih

theorem findCancerPages_nil (q : String) (tp : Int) (pages : List String) (ti : Int) :
    findCancerPages [] q tp pages ti = ([], "") := by
  rw [findCancerPages, findCancerEntry]
  rw [show stage1 [] (pyStrip (pyLower q)) = none from rfl,
    stage2_nil (pyStrip (pyLower q)) cancerAliases,
    show stage3 [] (pyStrip (pyLower q)) = none from rfl]

/-- C7: an unresolved topic or section query always returns a single
descriptive text block (never an exception); for a document with no
discoverable contents page the topic path resolves no pages and the
message's list of available topics is the empty marker
`(TOC 파싱 실패)`. -/
theorem readPdf_unresolved_graceful :
    (∀ (d : PdfDoc) (q : String) (t : Bool), truthy (some q) = true →
      (findCancerPages (parseToc (docTexts d)).1 q (d.pages.length : Int) (docTexts d)
          (parseToc (docTexts d)).2).1 = [] →
      readPdf d none none (some q) none t
        = .ok [Block.text (cancerNotFoundMsg q (availableStr (parseToc (docTexts d)).1))])
    ∧ (∀ (d : PdfDoc) (q : String) (t : Bool), truthy (some q) = true →
      findSectionPages (parseToc (docTexts d)).1 q (docTexts d) (d.pages.length : Int)
          (parseToc (docTexts d)).2 = [] →
      readPdf d none (some q) none none t
        = .ok [Block.text (sectionNotFoundMsg q (d.pages.length : Int))])
    ∧ (∀ (d : PdfDoc) (q : String) (t : Bool), truthy (some q) = true →
      (∀ i ∈ (List.range (min 50 (docTexts d).length)).drop 25,
        tocAnchored ((docTexts d).getD i "") = false) →
      parseToc (docTexts d) = ([], -1)
      ∧ (findCancerPages [] q (d.pages.length : Int) (docTexts d) (-1)).1 = []
      ∧ readPdf d none none (some q) none t
          = .ok [Block.text (cancerNotFoundMsg q "(TOC 파싱 실패)")]) := by
  have hn : truthy none = false := rfl
  refine ⟨?_, ?_, ?_⟩
  · intro d q t hq hempty
    simp only [readPdf, hq, hn, Bool.false_eq_true, if_false, if_true, Option.getD_some]
    rw [if_pos (by rw [List.isEmpty_iff]; exact hempty)]
  · intro d q t hq hempty
    simp only [readPdf, hq, hn, Bool.false_eq_true, if_false, if_true, Option.getD_some]
    rw [if_pos (by rw [List.isEmpty_iff]; exact hempty)]
  · intro d q t hq hno
    have hp := parseToc_of_noToc hno
    have hfc := findCancerPages_nil q (d.pages.length : Int) (docTexts d) (-1)
    refine ⟨hp, by rw [hfc], ?_⟩
    simp only [readPdf, hq, hn, Bool.false_eq_true, if_false, if_true, Option.getD_some, hp]
    rw [hfc]
    rw [if_pos (by decide)]
    rfl

/-- C7 witness: a one-page document has no discoverable TOC; a topic
query returns the descriptive empty-result block. -/
theorem readPdf_unresolved_graceful_witness :
    readPdf ⟨"t", [⟨"x", none, true⟩]⟩ none none (some "foo") none false
      = .ok [Block.text (cancerNotFoundMsg "foo" "(TOC 파싱 실패)")] :=
  ((readPdf_unresolved_graceful).2.2 ⟨"t", [⟨"x", none, true⟩]⟩ "foo" false (by decide)
    (by decide)).2.2

/-! ## C9: parameter precedence in `read_pdf` -/

/-- C9: when several query parameters are set, exactly one resolution
path runs, with precedence `search > cancer_type > section > pages`;
the lower-precedence parameters do not influence the result. -/
theorem readPdf_precedence (d : PdfDoc) (p sec c s : Option String) (t : Bool) :
    (truthy s = true → readPdf d p sec c s t = readPdf d none none none s t)
    ∧ (truthy s = false → truthy c = true →
        readPdf d p sec c s t = readPdf d none none c none t)
    ∧ (truthy s = false → truthy c = false → truthy sec = true →
        readPdf d p sec c s t = readPdf d none sec none none t)
    ∧ (truthy s = false → truthy c = false → truthy sec = false → truthy p = true →
        readPdf d p sec c s t = readPdf d p none none none t) := by
  have hn : truthy none = false := rfl
  refine ⟨?_, ?_, ?_, ?_⟩
  · intro hs
    simp only [readPdf, hs, if_true]
  · intro hs hc
    simp only [readPdf, hs, hc, hn, Bool.false_eq_true, if_false, if_true]
  · intro hs hc hsec
    simp only [readPdf, hs, hc, hsec, hn, Bool.false_eq_true, if_false, if_true]
  · intro hs hc hsec hp
    simp only [readPdf, hs, hc, hsec, hp, hn, Bool.false_eq_true, if_false, if_true]

/-- C9 witness: with all four parameters set, the search path runs and
the others are ignored. -/
theorem readPdf_precedence_witness :
    truthy (some "k") = true
    ∧ readPdf ⟨"t", [⟨"x", none, true⟩]⟩ (some "1") (some "일반원칙") (some "위암")
        (some "k") false
      = readPdf ⟨"t", [⟨"x", none, true⟩]⟩ none none none (some "k") false :=
  ⟨by decide,
   (readPdf_precedence ⟨"t", [⟨"x", none, true⟩]⟩ (some "1") (some "일반원칙")
      (some "위암") (some "k") false).1 (by decide)⟩

end HiraReader
